import Mathlib

/-!
Verification of the `rxl` spreadsheet-formula engine against its
natural-language specification.

This file is a shallow embedding of the Rust sources (`tokenizer.rs`,
`ast.rs`, `cell.rs`, `table.rs`, `error.rs`, `eval.rs`) into Lean 4.

Modelling conventions:
* `BigDecimal` (arbitrary-precision decimal) is modelled as `ℚ`.  All the
  arithmetic exercised by the claims (+, -, *) is exact in both; the only
  divergence is `/` on non-terminating quotients (bigdecimal rounds to a
  default precision), which no claim touches.  `usize` is modelled as `ℕ`
  (machine-word overflow is not the subject of any claim).
* Rust panics (`unimplemented!`, `Vec` index out of bounds, bigdecimal's
  division by zero) are modelled explicitly as a `CrashKind` outcome so
  that "the code panics" is an observable result, distinct from returning
  an error value.
* `HashSet<(usize,usize)>` (the evaluation call chain) is modelled as a
  duplicate-free `List (ℕ × ℕ)`; `insert` is a membership test followed by
  `cons`, matching `HashSet::insert`'s return value.
* The recursive evaluator `Table::evaluate_cell` recurses through a
  closure; in Lean it takes a fuel parameter.  A fuel-exhaustion outcome is
  `CrashKind.fuelOut`; theorems about termination show that sufficient
  fuel never produces it.
* `char::is_numeric` / `is_alphabetic` / `is_whitespace` are modelled by
  the corresponding ASCII predicates (`Char.isDigit` / `Char.isAlpha` /
  `Char.isWhitespace`).  They agree on all ASCII input; no claim involves
  non-ASCII numerals.
* `eval.rs` declares `Evaluate::evaluate` returning a single
  `TableResult<BigDecimal>`, while `table.rs` consumes the result with
  `res.len()` / `res[0]` as if it were a vector.  Under the declared trait
  the crate does not type-check; the embedding reads the evaluator's
  result as the one-element sequence it produces, so the `len() == 1` arm
  is always taken and the `MultipleCellReturn` arm is dead code.
* Error messages built in Rust with `format!` and `Debug` formatting are
  reproduced with plain string concatenation and a small token printer;
  the message text is best-effort, the error constructor is faithful.
-/

deriving instance DecidableEq for Except

namespace Rxl

/-- Ways the Rust program can panic (crash the process) during the code
paths modelled here.  `fuelOut` is the embedding's marker for exhausting
the recursion fuel; it does not correspond to a Rust panic. -/
inductive CrashKind where
  | fuelOut
  | idxOOB
  | divZero
  | unimpl
  deriving DecidableEq, Repr

/-- `error.rs`: `TableError`. -/
inductive TableError where
  | mismatchedColumns
  | emptyTable
  | errorReadingFile
  | invalidCell (msg : String)
  | errorConstructingAst (msg : String)
  | runtimeError (msg : String)
  | recursiveCellExpr (col row : ℕ)
  | emptyCellEvaluation
  | multipleCellReturn
  deriving DecidableEq, Repr

/-- `tokenizer.rs`: `Token`.  `CellRange((Range<usize>, Range<usize>))` is
flattened into its four endpoints `(colStart, colEnd, rowStart, rowEnd)`. -/
inductive Token where
  | number (d : ℚ)
  | cellRef (col row : ℕ)
  | cellRange (colStart colEnd rowStart rowEnd : ℕ)
  | comma
  | sum
  | plus
  | slash
  | minus
  | star
  | lparen
  | rparen
  deriving DecidableEq, Repr

namespace Token

/-- `Token::is_number`. -/
def is_number : Token → Bool
  | .number _ => true
  | _ => false

/-- `Token::is_cell_ref`. -/
def is_cell_ref : Token → Bool
  | .cellRef _ _ => true
  | _ => false

/-- `Token::is_cell_range`. -/
def is_cell_range : Token → Bool
  | .cellRange _ _ _ _ => true
  | _ => false

/-- `Token::is_builtin_fn`. -/
def is_builtin_fn : Token → Bool
  | .sum => true
  | _ => false

/-- `impl TryFrom<char> for Token`: single-character punctuation. -/
def tryFromChar (c : Char) : Except TableError Token :=
  if c = '+' then .ok .plus
  else if c = '-' then .ok .minus
  else if c = '/' then .ok .slash
  else if c = '*' then .ok .star
  else if c = '(' then .ok .lparen
  else if c = ')' then .ok .rparen
  else if c = ',' then .ok .comma
  else .error (.invalidCell ("Unknown character encountered: " ++ String.mk [c]))

end Token

/-! ## Rational arithmetic helpers

Lean core's `Rat.add`/`Rat.mul`/… do not reduce inside the kernel, which
would make the embedded program impossible to evaluate by `decide`.  The
operations below build their results with `mkRat` (which does reduce) and
are proved extensionally equal to the standard `ℚ` operations, so the
embedding still computes with genuine rational arithmetic. -/

/-- Kernel-computable rational addition. -/
def qAdd (a b : ℚ) : ℚ := mkRat (a.num * b.den + b.num * a.den) (a.den * b.den)

/-- Kernel-computable rational subtraction. -/
def qSub (a b : ℚ) : ℚ := mkRat (a.num * b.den - b.num * a.den) (a.den * b.den)

/-- Kernel-computable rational multiplication. -/
def qMul (a b : ℚ) : ℚ := mkRat (a.num * b.num) (a.den * b.den)

/-- Kernel-computable rational negation. -/
def qNeg (a : ℚ) : ℚ := mkRat (-a.num) a.den

/-- Kernel-computable rational division (exact; bigdecimal rounds
non-terminating decimal quotients to a default precision instead, a
divergence no claim exercises). -/
def qDiv (a b : ℚ) : ℚ := Rat.divInt (a.num * b.den) (a.den * b.num)

theorem qAdd_eq (a b : ℚ) : qAdd a b = a + b := by
  have ha : ((a.den : ℚ)) ≠ 0 := by exact_mod_cast a.den_nz
  have hb : ((b.den : ℚ)) ≠ 0 := by exact_mod_cast b.den_nz
  rw [qAdd, Rat.mkRat_eq_div]
  push_cast
  conv_rhs => rw [← Rat.num_div_den a, ← Rat.num_div_den b]
  field_simp

theorem qSub_eq (a b : ℚ) : qSub a b = a - b := by
  have ha : ((a.den : ℚ)) ≠ 0 := by exact_mod_cast a.den_nz
  have hb : ((b.den : ℚ)) ≠ 0 := by exact_mod_cast b.den_nz
  rw [qSub, Rat.mkRat_eq_div]
  push_cast
  conv_rhs => rw [← Rat.num_div_den a, ← Rat.num_div_den b]
  field_simp
  ring

theorem qMul_eq (a b : ℚ) : qMul a b = a * b := by
  have ha : ((a.den : ℚ)) ≠ 0 := by exact_mod_cast a.den_nz
  have hb : ((b.den : ℚ)) ≠ 0 := by exact_mod_cast b.den_nz
  rw [qMul, Rat.mkRat_eq_div]
  push_cast
  conv_rhs => rw [← Rat.num_div_den a, ← Rat.num_div_den b]
  field_simp

theorem qNeg_eq (a : ℚ) : qNeg a = -a := by
  have ha : ((a.den : ℚ)) ≠ 0 := by exact_mod_cast a.den_nz
  rw [qNeg, Rat.mkRat_eq_div]
  push_cast
  conv_rhs => rw [← Rat.num_div_den a]
  field_simp

theorem qDiv_eq (a b : ℚ) : qDiv a b = a / b := by
  have ha : ((a.den : ℚ)) ≠ 0 := by exact_mod_cast a.den_nz
  have hb : ((b.den : ℚ)) ≠ 0 := by exact_mod_cast b.den_nz
  rw [qDiv, Rat.divInt_eq_div]
  push_cast
  conv_rhs => rw [← Rat.num_div_den a, ← Rat.num_div_den b]
  rcases eq_or_ne b.num 0 with h | h
  · simp [h]
  · have hbq : ((b.num : ℚ)) ≠ 0 := by exact_mod_cast h
    field_simp

/-! ## Tokenizer (`tokenizer.rs`) -/

/-- Decimal digit run to a natural number, as `str::parse::<usize>` on an
all-digit string (overflow is outside the model). -/
def digitsToNat (l : List Char) : ℕ :=
  l.foldl (fun a c => a * 10 + (c.toNat - 48)) 0

/-- Model of `BigDecimal::from_str` restricted to the shapes the claims
exercise: optional sign, an integer digit run, an optional fraction.
Exponent notation is not modelled (no claim uses it). -/
def bigDecimalFromStr (l : List Char) : Option ℚ :=
  let (neg, l) : Bool × List Char :=
    match l with
    | '-' :: rest => (true, rest)
    | '+' :: rest => (false, rest)
    | rest => (false, rest)
  let intPart := l.takeWhile Char.isDigit
  let l2 := l.dropWhile Char.isDigit
  let mk : List Char → List Char → ℚ := fun ip fp =>
    let m : ℤ := ((digitsToNat ip * 10 ^ fp.length + digitsToNat fp : ℕ) : ℤ)
    mkRat (if neg then -m else m) (10 ^ fp.length)
  match l2 with
  | [] => if intPart = [] then none else some (mk intPart [])
  | '.' :: rest =>
    if rest.dropWhile Char.isDigit = [] then
      some (mk intPart (rest.takeWhile Char.isDigit))
    else none
  | _ => none

/-- `Tokenizer::number`: a digit run, optionally followed by `.` and more
digits, fed to `BigDecimal::from_str`. -/
def tokNumber (src : List Char) : Except TableError Token × List Char :=
  let digits := src.takeWhile Char.isDigit
  let rest := src.dropWhile Char.isDigit
  let (numChars, rest) :=
    match rest with
    | '.' :: rest2 =>
      (digits ++ '.' :: rest2.takeWhile Char.isDigit, rest2.dropWhile Char.isDigit)
    | _ => (digits, rest)
  match bigDecimalFromStr numChars with
  | some d => (.ok (.number d), rest)
  | none =>
    (.error (.invalidCell ("Could not format " ++ String.mk numChars ++
      " as a valid number")), rest)

/-- The base-26 column accumulation loop inside
`Tokenizer::parse_cell_reference`:
`for (i, c) in column_slice.iter().rev().enumerate() { col += (lower(c) - 96) * 26^i }`. -/
def decodeCol (l : List Char) : ℕ :=
  (l.reverse.enum.map (fun p =>
    if p.2.isAlpha then (p.2.toLower.toNat - 96) * 26 ^ p.1 else 0)).sum

/-- `Tokenizer::parse_cell_reference`: a maximal ASCII-alphabetic run
decoded base-26 (1-indexed, stored 0-indexed), then a maximal digit run
decoded as a 1-indexed row (0 rejected), stored 0-indexed.  Returns the
coordinates and the remaining input. -/
def parse_cell_reference (src : List Char) :
    Except TableError ((ℕ × ℕ) × List Char) :=
  let colSlice := src.takeWhile Char.isAlpha
  if colSlice = [] then
    .error (.invalidCell "Could not parse cell reference")
  else
    let rest1 := src.dropWhile Char.isAlpha
    let col := decodeCol colSlice
    let rowSlice := rest1.takeWhile Char.isDigit
    if rowSlice = [] then
      .error (.invalidCell "Could not parse cell reference")
    else
      let rest2 := rest1.dropWhile Char.isDigit
      let row := digitsToNat rowSlice
      if row = 0 then
        .error (.invalidCell "Could not parse cell reference")
      else
        .ok ((col - 1, row - 1), rest2)

/-- `Tokenizer::cell_reference`: one reference, or two joined by `:` into a
`CellRange` whose bounds run from the first corner to the second corner
plus one. -/
def cell_reference (src : List Char) : Except TableError (Token × List Char) :=
  match parse_cell_reference src with
  | .error e => .error e
  | .ok ((col, row), rest) =>
    if rest.head? ≠ some ':' then
      .ok (.cellRef col row, rest)
    else
      match parse_cell_reference (rest.drop 1) with
      | .error _ => .error (.invalidCell "Invalid cell range")
      | .ok ((nextCol, nextRow), rest2) =>
        .ok (.cellRange col (nextCol + 1) row (nextRow + 1), rest2)

/-- `Tokenizer::literal`: a case-insensitive builtin keyword (`sum`) or
else a cell reference.  On a reference error the Rust tokenizer has
already consumed the reference's prefix while this model re-presents the
input unconsumed; the divergence is unobservable here because every
consumer (the parser) stops at the first `Err` token. -/
def tokLiteral (src : List Char) : Except TableError Token × List Char :=
  let n := (src.takeWhile Char.isAlpha).length
  if (src.take n).map Char.toLower = "sum".toList then
    (.ok .sum, src.drop n)
  else
    match cell_reference src with
    | .ok (t, rest) => (.ok t, rest)
    | .error e => (.error e, src)

/-- `Tokenizer::next_token`: skip whitespace, then dispatch on the first
character.  Returns `none` at end of input. -/
def next_token (src : List Char) : Option (Except TableError Token × List Char) :=
  let src := src.dropWhile Char.isWhitespace
  match src with
  | [] => none
  | c :: rest =>
    if c.isAlpha then some (tokLiteral src)
    else if c.isDigit then some (tokNumber src)
    else some (Token.tryFromChar c, rest)

/-- Collecting the tokenizer's `Iterator` into a list (fuelled; each
produced token consumes at least one character, so fuel `length + 1`
always suffices for the concrete inputs used below). -/
def tokenizeAll : ℕ → List Char → List (Except TableError Token)
  | 0, _ => []
  | fuel + 1, src =>
    match next_token src with
    | none => []
    | some (t, rest) => t :: tokenizeAll fuel rest

/-- Tokenize a formula body with ample fuel. -/
def tokenize (src : List Char) : List (Except TableError Token) :=
  tokenizeAll (src.length + 1) src

/-! ## AST (`ast.rs`) -/

/-- `ast.rs`: `Expr`.  Note there is no `Call` variant in the source:
`parser.rs` refers to an `Expr::call` constructor that does not exist
(the crate does not compile), and the parser actually reachable from
`Cell::new_expr` is the one defined inside `ast.rs`. -/
inductive Expr where
  | binary (left : Expr) (operator : Token) (right : Expr)
  | grouping (inner : Expr)
  | literal (token : Token)
  | unary (operator : Token) (right : Expr)
  deriving DecidableEq, Repr

/-- Outcome of evaluating an expression or a cell: either a
`TableResult<BigDecimal>` value, or a crash (Rust panic / fuel marker). -/
inductive EvalOut where
  | val (res : Except TableError ℚ)
  | crash (k : CrashKind)
  deriving DecidableEq, Repr

/-- `cell.rs`: `CellKind`. -/
inductive CellKind where
  | empty
  | expr (e : Expr) (result : Option (Except TableError ℚ))
  | number (d : ℚ)
  deriving DecidableEq, Repr

/-- `cell.rs`: `Cell` — original source text plus a kind. -/
structure Cell where
  source : String
  kind : CellKind
  deriving DecidableEq, Repr

/-- `table.rs`: `Table` — row and column counts plus a flat vector of
per-slot `Result<Cell, TableError>` entries. -/
structure Table where
  rows : ℕ
  cols : ℕ
  cells : List (Except TableError Cell)
  deriving DecidableEq, Repr

/-- `Expr::eval` (`ast.rs`).  `lookup` is the caller-supplied cell
resolver, which threads the (mutable) table through each call.  Division
by zero panics in bigdecimal, modelled as a crash; the `?` operator's
error propagation is written out. -/
def exprEval (lookup : Table → ℕ → ℕ → Table × EvalOut) :
    Expr → Table → Table × EvalOut
  | .binary left op right, t =>
    match exprEval lookup left t with
    | (t1, .crash k) => (t1, .crash k)
    | (t1, .val (.error e)) => (t1, .val (.error e))
    | (t1, .val (.ok lv)) =>
      match exprEval lookup right t1 with
      | (t2, .crash k) => (t2, .crash k)
      | (t2, .val (.error e)) => (t2, .val (.error e))
      | (t2, .val (.ok rv)) =>
        match op with
        | .plus => (t2, .val (.ok (qAdd lv rv)))
        | .slash =>
          if rv = 0 then (t2, .crash .divZero) else (t2, .val (.ok (qDiv lv rv)))
        | .minus => (t2, .val (.ok (qSub lv rv)))
        | .star => (t2, .val (.ok (qMul lv rv)))
        | _ => (t2, .val (.error (.runtimeError "invalid token in binary expression")))
  | .grouping inner, t => exprEval lookup inner t
  | .literal tok, t =>
    match tok with
    | .number d => (t, .val (.ok d))
    | .cellRef col row => lookup t col row
    | _ => (t, .val (.error (.runtimeError "invalid token literal")))
  | .unary op right, t =>
    match exprEval lookup right t with
    | (t1, .crash k) => (t1, .crash k)
    | (t1, .val (.error e)) => (t1, .val (.error e))
    | (t1, .val (.ok rv)) =>
      match op with
      | .minus => (t1, .val (.ok (qNeg rv)))
      | _ => (t1, .val (.error (.runtimeError "invalid token for unary expression")))

/-! ## Parser (`ast.rs`'s `Parser`, the one used by `cell.rs`) -/

/-- Best-effort rendering of Rust's `{:?}` on an `Option<Token>` for the
parser's error message. -/
def optTokenDebug : Option Token → String
  | none => "None"
  | some t => "Some(" ++ toString (repr t) ++ ")"

/-- Parser state: the not-yet-pulled token stream plus the one-token
lookahead (`current_token`) and `previous_token`. -/
structure PState where
  toks : List (Except TableError Token)
  current : Option Token
  previous : Option Token
  deriving Repr

/-- `Parser::advance`: previous ← current; current ← next token from the
lexer (an `Err` token propagates). -/
def pAdvance (s : PState) : Except TableError PState :=
  match s.toks with
  | [] => .ok { toks := [], current := none, previous := s.current }
  | .error e :: _ => .error e
  | .ok tok :: rest => .ok { toks := rest, current := some tok, previous := s.current }

/-- `Parser::advance_match`. -/
def pAdvanceMatch (pred : Token → Bool) (s : PState) :
    Except TableError (Bool × PState) :=
  match s.current with
  | some t =>
    if pred t then
      match pAdvance s with
      | .error e => .error e
      | .ok s2 => .ok (true, s2)
    else .ok (false, s)
  | none => .ok (false, s)

/-- `Parser::consume_or`. -/
def pConsumeOr (pred : Token → Bool) (err : TableError) (s : PState) :
    Except TableError PState :=
  match s.current with
  | some t =>
    if pred t then pAdvance s else .error err
  | none => .error err

/-- `Parser::get_previous_token`. -/
def pGetPrevious (s : PState) : Except TableError Token :=
  match s.previous with
  | some t => .ok t
  | none => .error (.errorConstructingAst "Error returning previous token")

mutual

/-- `Parser::expression` (fuelled; recursion depth is bounded by the token
count for every input considered here). -/
def pExpression : ℕ → PState → Except TableError (Expr × PState)
  | 0, _ => .error (.errorConstructingAst "out of fuel")
  | fuel + 1, s => pTerm fuel s

/-- `Parser::term`: `factor ( ('+' | '-') factor )*`. -/
def pTerm : ℕ → PState → Except TableError (Expr × PState)
  | 0, _ => .error (.errorConstructingAst "out of fuel")
  | fuel + 1, s =>
    match pFactor fuel s with
    | .error e => .error e
    | .ok (e1, s1) => pTermLoop fuel e1 s1

/-- The loop inside `Parser::term`. -/
def pTermLoop : ℕ → Expr → PState → Except TableError (Expr × PState)
  | 0, _, _ => .error (.errorConstructingAst "out of fuel")
  | fuel + 1, acc, s =>
    match pAdvanceMatch (fun t => t = .minus || t = .plus) s with
    | .error e => .error e
    | .ok (false, s1) => .ok (acc, s1)
    | .ok (true, s1) =>
      match pGetPrevious s1 with
      | .error e => .error e
      | .ok op =>
        match pFactor fuel s1 with
        | .error e => .error e
        | .ok (rhs, s2) => pTermLoop fuel (.binary acc op rhs) s2

/-- `Parser::factor`: `unary ( ('*' | '/') unary )*`. -/
def pFactor : ℕ → PState → Except TableError (Expr × PState)
  | 0, _ => .error (.errorConstructingAst "out of fuel")
  | fuel + 1, s =>
    match pUnary fuel s with
    | .error e => .error e
    | .ok (e1, s1) => pFactorLoop fuel e1 s1

/-- The loop inside `Parser::factor`. -/
def pFactorLoop : ℕ → Expr → PState → Except TableError (Expr × PState)
  | 0, _, _ => .error (.errorConstructingAst "out of fuel")
  | fuel + 1, acc, s =>
    match pAdvanceMatch (fun t => t = .slash || t = .star) s with
    | .error e => .error e
    | .ok (false, s1) => .ok (acc, s1)
    | .ok (true, s1) =>
      match pGetPrevious s1 with
      | .error e => .error e
      | .ok op =>
        match pUnary fuel s1 with
        | .error e => .error e
        | .ok (rhs, s2) => pFactorLoop fuel (.binary acc op rhs) s2

/-- `Parser::unary`: `'-' unary | primary`.  (In `ast.rs` — the parser
`cell.rs` uses — `unary` falls through directly to `primary`; there is no
call level.) -/
def pUnary : ℕ → PState → Except TableError (Expr × PState)
  | 0, _ => .error (.errorConstructingAst "out of fuel")
  | fuel + 1, s =>
    match pAdvanceMatch (fun t => t = .minus) s with
    | .error e => .error e
    | .ok (true, s1) =>
      match pGetPrevious s1 with
      | .error e => .error e
      | .ok op =>
        match pUnary fuel s1 with
        | .error e => .error e
        | .ok (rhs, s2) => .ok (.unary op rhs, s2)
    | .ok (false, s1) => pPrimary fuel s1

/-- `Parser::primary` (`ast.rs`): only `NUMBER`, `CELLREF` or a
parenthesised expression are accepted — `Sum` and `CellRange` tokens are
rejected here. -/
def pPrimary : ℕ → PState → Except TableError (Expr × PState)
  | 0, _ => .error (.errorConstructingAst "out of fuel")
  | fuel + 1, s =>
    match pAdvanceMatch (fun t => t.is_number || t.is_cell_ref) s with
    | .error e => .error e
    | .ok (true, s1) =>
      match pGetPrevious s1 with
      | .error e => .error e
      | .ok tok => .ok (.literal tok, s1)
    | .ok (false, s1) =>
      match pAdvanceMatch (fun t => t = .lparen) s1 with
      | .error e => .error e
      | .ok (true, s2) =>
        match pExpression fuel s2 with
        | .error e => .error e
        | .ok (inner, s3) =>
          match pConsumeOr (fun t => t = .rparen)
              (.errorConstructingAst "Expected ')' after expression") s3 with
          | .error e => .error e
          | .ok s4 => .ok (.grouping inner, s4)
      | .ok (false, s2) =>
        .error (.errorConstructingAst
          ("Invalid primary expression token: " ++ optTokenDebug s2.current))

end

/-- `Parser::ast`: advance once, then parse an expression. -/
def parserAst (toks : List (Except TableError Token)) : Except TableError Expr :=
  let s0 : PState := { toks := toks, current := none, previous := none }
  match pAdvance s0 with
  | .error e => .error e
  | .ok s1 =>
    match pExpression (5 * toks.length + 10) s1 with
    | .error e => .error e
    | .ok (e, _) => .ok e

/-! ## Cell construction (`cell.rs`) -/

/-- A possibly-crashing result: `res` is the Rust function's return value,
`crash` a panic. -/
inductive POut (α : Type) where
  | crash (k : CrashKind)
  | res (v : α)
  deriving DecidableEq, Repr

/-- `cell.rs::parse_expr`: tokenize and parse a formula body. -/
def parse_expr (body : List Char) : Except TableError CellKind :=
  match parserAst (tokenize body) with
  | .error e => .error e
  | .ok ast => .ok (.expr ast none)

/-- `cell.rs::parse_number`: `BigDecimal::from_str` on the whole cell
text. -/
def parse_number (num : String) : Except TableError CellKind :=
  match bigDecimalFromStr num.toList with
  | some d => .ok (.number d)
  | none =>
    .error (.invalidCell ("Could not format " ++ num ++ " as a valid number"))

/-- `Cell::new_expr`: empty text → `Empty`; `=`-prefixed → lex + parse the
remainder; digit-leading → literal number; anything else hits
`unimplemented!` — a Rust panic, modelled as a crash. -/
def new_expr (source : String) : POut (Except TableError Cell) :=
  let cs := source.toList
  match cs with
  | [] => .res (.ok { source := source, kind := .empty })
  | c :: rest =>
    if c = '=' then
      match parse_expr rest with
      | .error e => .res (.error e)
      | .ok kind => .res (.ok { source := source, kind := kind })
    else if c.isDigit then
      match parse_number source with
      | .error e => .res (.error e)
      | .ok kind => .res (.ok { source := source, kind := kind })
    else
      .crash .unimpl

/-- `impl Display for Cell` (`cell.rs`): unconditionally renders the
original source text, whatever the kind and cached result. -/
def cellDisplay (c : Cell) : String := c.source

/-! ## Table construction and evaluation driver (`table.rs`) -/

/-- Split a character list at every occurrence of `sep` (the behaviour of
Rust's `str::split` on a single-character pattern). -/
def splitOnChar (sep : Char) : List Char → List (List Char)
  | [] => [[]]
  | c :: rest =>
    match splitOnChar sep rest with
    | [] => [[]]
    | cur :: others =>
      if c = sep then [] :: cur :: others else (c :: cur) :: others

/-- Rust `str::lines`: split on `'\n'`, without a trailing empty line.
(`\r` handling is not modelled; no input here contains `\r`.) -/
def rustLines (s : String) : List (List Char) :=
  let parts := splitOnChar '\n' s.toList
  if parts.getLast? = some [] then parts.dropLast else parts

/-- `Table::new_interpet`: split the source into `|`-separated cells line
by line (so the cell vector is filled row-major), enforcing equal column
counts and rejecting empty input.  A crash from `Cell::new_expr`
propagates. -/
def new_interpet (source : String) : POut (Except TableError Table) :=
  let rowsList := rustLines source
  let build := rowsList.foldl
    (fun (acc : POut (Except TableError (List (Except TableError Cell) × Option ℕ × ℕ)))
        (line : List Char) =>
      match acc with
      | .crash k => .crash k
      | .res (.error e) => .res (.error e)
      | .res (.ok (cells, prevCols, rows)) =>
        let pieces := splitOnChar '|' line
        let step := pieces.foldl
          (fun (st : POut (List (Except TableError Cell) × ℕ)) (piece : List Char) =>
            match st with
            | .crash k => .crash k
            | .res (cs, n) =>
              match new_expr (String.mk piece) with
              | .crash k => .crash k
              | .res cell => .res (cs ++ [cell], n + 1))
          (.res (cells, 0))
        match step with
        | .crash k => .crash k
        | .res (cells2, currentCols) =>
          match prevCols with
          | none => .res (.ok (cells2, some currentCols, rows + 1))
          | some p =>
            if p ≠ currentCols then .res (.error .mismatchedColumns)
            else .res (.ok (cells2, some p, rows + 1)))
    (.res (.ok ([], none, 0)))
  match build with
  | .crash k => .crash k
  | .res (.error e) => .res (.error e)
  | .res (.ok (_, none, _)) => .res (.error .emptyTable)
  | .res (.ok (cells, some cols, rows)) =>
    .res (.ok { rows := rows, cols := cols, cells := cells })

/-- `Table::evaluate_cell` (fuelled).  The call chain is inserted into
first (`HashSet::insert`, failure = cycle error); the cell is fetched at
the column-major index `col * rows + row` (an out-of-bounds index is a
Rust panic); an `Expr` cell with no cached result evaluates its AST with a
lookup that recurses with a copy of the extended chain, then stores the
outcome (the evaluator yields exactly one result, so the
`MultipleCellReturn` arm of the `res.len()` match in the source is dead). -/
def evaluate_cell_body (rec : Table → ℕ → ℕ → List (ℕ × ℕ) → Table × EvalOut)
    (t : Table) (col row : ℕ) (chain : List (ℕ × ℕ)) : Table × EvalOut :=
  if (col, row) ∈ chain then
    (t, .val (.error (.recursiveCellExpr col row)))
  else
    match t.cells[col * t.rows + row]? with
    | none => (t, .crash .idxOOB)
    | some (.error e) => (t, .val (.error e))
    | some (.ok cell) =>
      match cell.kind with
      | .empty => (t, .val (.error .emptyCellEvaluation))
      | .number d => (t, .val (.ok d))
      | .expr _e (some res) => (t, .val res)
      | .expr e none =>
        match exprEval (fun t2 c2 r2 => rec t2 c2 r2 ((col, row) :: chain)) e t with
        | (t1, .crash k) => (t1, .crash k)
        | (t1, .val res) =>
          let newCells := t1.cells.set (col * t.rows + row)
            (.ok { source := cell.source, kind := .expr e (some res) })
          ({ t1 with cells := newCells }, .val res)

/-- The fuelled recursion itself (spends one fuel unit per nested
`evaluate_cell` invocation), written with `Nat.rec` so that the kernel
can evaluate it on concrete tables. -/
def evaluate_cell (fuel : ℕ) : Table → ℕ → ℕ → List (ℕ × ℕ) → Table × EvalOut :=
  Nat.rec (fun t _ _ _ => (t, .crash .fuelOut))
    (fun _ rec => evaluate_cell_body rec) fuel

theorem evaluate_cell_zero (t : Table) (col row : ℕ) (chain : List (ℕ × ℕ)) :
    evaluate_cell 0 t col row chain = (t, .crash .fuelOut) := rfl

theorem evaluate_cell_succ (fuel : ℕ) :
    evaluate_cell (fuel + 1) = evaluate_cell_body (evaluate_cell fuel) := rfl

/-- One iteration of the loop body of `Table::run` at coordinate
`(col, row)`: skip `Err` slots and already-resolved cells; evaluate an
uncached `Expr` cell with a fresh empty call chain per lookup and store
the outcome.  A crash aborts the whole run (Rust unwinding). -/
def runStep (fuel : ℕ) (s : Table × Option CrashKind) (p : ℕ × ℕ) :
    Table × Option CrashKind :=
  match s with
  | (t, some k) => (t, some k)
  | (t, none) =>
    match t.cells[p.1 * t.rows + p.2]? with
    | none => (t, some .idxOOB)
    | some (.error _) => (t, none)
    | some (.ok c) =>
      match c.kind with
      | .expr e none =>
        match exprEval
            (fun t2 c2 r2 => evaluate_cell fuel t2 c2 r2 []) e t with
        | (t1, .crash k) => (t1, some k)
        | (t1, .val res) =>
          let newCells := t1.cells.set (p.1 * t.rows + p.2)
            (.ok { source := c.source, kind := .expr e (some res) })
          ({ t1 with cells := newCells }, none)
      | _ => (t, none)

/-- The column-major iteration order of `Table::run`: outer loop over
columns, inner loop over rows. -/
def colMajorPairs (cols rows : ℕ) : List (ℕ × ℕ) :=
  (List.range cols).flatMap (fun c => (List.range rows).map (fun r => (c, r)))

/-- `Table::run` (fuelled, for the lookups' recursion): evaluate every
still-unevaluated `Expr` cell, iterating column-major. -/
def Table.run (fuel : ℕ) (t : Table) : Table × Option CrashKind :=
  (colMajorPairs t.cols t.rows).foldl (runStep fuel) (t, none)

/-! ## Invariants of the evaluation driver -/

/-- The table's shape: row count, column count, and cell-vector length.
Every mutation performed by the evaluator replaces one slot's contents,
so the shape is invariant. -/
def dims (t : Table) : ℕ × ℕ × ℕ := (t.rows, t.cols, t.cells.length)

/-- A table predicate stable under the only write the evaluator ever
performs (storing a cached result into one slot) is preserved by
`exprEval` whenever the supplied lookup preserves it. -/
theorem exprEval_preserves (P : Table → Prop)
    (lookup : Table → ℕ → ℕ → Table × EvalOut)
    (hl : ∀ t c r, P t → P (lookup t c r).1) :
    ∀ e t, P t → P (exprEval lookup e t).1 := by
  intro e
  induction e with
  | binary l op r ihl ihr =>
    intro t hP
    rw [exprEval]
    split
    next t1 k heq =>
      have h := ihl t hP
      rw [heq] at h
      exact h
    next t1 e1 heq =>
      have h := ihl t hP
      rw [heq] at h
      exact h
    next t1 lv heq =>
      have h1 : P t1 := by have h := ihl t hP; rw [heq] at h; exact h
      split
      next t2 k2 heq2 =>
        have h := ihr t1 h1
        rw [heq2] at h
        exact h
      next t2 e2 heq2 =>
        have h := ihr t1 h1
        rw [heq2] at h
        exact h
      next t2 rv heq2 =>
        have h2 : P t2 := by have h := ihr t1 h1; rw [heq2] at h; exact h
        cases op <;> try exact h2
        rcases eq_or_ne rv 0 with hrv | hrv
        · rw [if_pos hrv]
          exact h2
        · rw [if_neg hrv]
          exact h2
  | grouping inner ih =>
    intro t hP
    rw [exprEval]
    exact ih t hP
  | literal tok =>
    intro t hP
    cases tok <;> first | exact hP | exact hl t _ _ hP
  | unary op r ih =>
    intro t hP
    rw [exprEval]
    split
    next t1 k heq =>
      have h := ih t hP
      rw [heq] at h
      exact h
    next t1 e1 heq =>
      have h := ih t hP
      rw [heq] at h
      exact h
    next t1 rv heq =>
      have h1 : P t1 := by have h := ih t hP; rw [heq] at h; exact h
      cases op <;> exact h1

/-- Preservation through the fuelled `evaluate_cell`, given that `P` is
stable under storing a cached result into any slot. -/
theorem evaluate_cell_preserves (P : Table → Prop)
    (hset : ∀ t i s e res, P t →
      P { t with cells := t.cells.set i (.ok { source := s, kind := .expr e (some res) }) }) :
    ∀ fuel t c r chain, P t → P (evaluate_cell fuel t c r chain).1 := by
  intro fuel
  induction fuel with
  | zero => intro t c r chain hP; exact hP
  | succ f ih =>
    intro t c r chain hP
    rw [evaluate_cell_succ]
    unfold evaluate_cell_body
    split
    · exact hP
    · split
      · exact hP
      next e heq => exact hP
      next cell heq =>
        split
        · exact hP
        next d heq2 => exact hP
        next e res heq2 => exact hP
        next e heq2 =>
          split
          next t1 k heq3 =>
            have h1 := exprEval_preserves P _
              (fun t2 c2 r2 hP2 => ih t2 c2 r2 ((c, r) :: chain) hP2) e t hP
            rw [heq3] at h1
            exact h1
          next t1 res heq3 =>
            have h1 := exprEval_preserves P _
              (fun t2 c2 r2 hP2 => ih t2 c2 r2 ((c, r) :: chain) hP2) e t hP
            rw [heq3] at h1
            exact hset t1 _ _ _ _ h1

/-- `evaluate_cell` never changes the table's shape. -/
theorem evaluate_cell_dims (fuel : ℕ) (t : Table) (c r : ℕ) (chain : List (ℕ × ℕ)) :
    dims (evaluate_cell fuel t c r chain).1 = dims t := by
  have := evaluate_cell_preserves (fun t2 => dims t2 = dims t)
    (fun t2 i s e res h2 => by simpa [dims, List.length_set] using h2)
    fuel t c r chain rfl
  exact this

/-- `exprEval` with the recursive-lookup closure never changes the
table's shape. -/
theorem exprEval_dims (fuel : ℕ) (chain : List (ℕ × ℕ)) (e : Expr) (t : Table) :
    dims (exprEval (fun t2 c2 r2 => evaluate_cell fuel t2 c2 r2 chain) e t).1 = dims t := by
  exact exprEval_preserves (fun t2 => dims t2 = dims t) _
    (fun t2 c2 r2 h2 => (evaluate_cell_dims fuel t2 c2 r2 chain).trans h2) e t rfl

/-! ## Step equations for `evaluate_cell` -/

theorem eval_step_mem {f : ℕ} {t : Table} {c r : ℕ} {chain : List (ℕ × ℕ)}
    (h : (c, r) ∈ chain) :
    evaluate_cell (f + 1) t c r chain = (t, .val (.error (.recursiveCellExpr c r))) := by
  rw [evaluate_cell_succ]
  unfold evaluate_cell_body
  rw [if_pos h]

theorem eval_step_number {f : ℕ} {t : Table} {c r : ℕ} {chain : List (ℕ × ℕ)}
    {s : String} {d : ℚ} (h1 : (c, r) ∉ chain)
    (h2 : t.cells[c * t.rows + r]? = some (.ok { source := s, kind := .number d })) :
    evaluate_cell (f + 1) t c r chain = (t, .val (.ok d)) := by
  rw [evaluate_cell_succ]
  unfold evaluate_cell_body
  rw [if_neg h1, h2]

theorem eval_step_cached {f : ℕ} {t : Table} {c r : ℕ} {chain : List (ℕ × ℕ)}
    {s : String} {e : Expr} {res : Except TableError ℚ} (h1 : (c, r) ∉ chain)
    (h2 : t.cells[c * t.rows + r]? = some (.ok { source := s, kind := .expr e (some res) })) :
    evaluate_cell (f + 1) t c r chain = (t, .val res) := by
  rw [evaluate_cell_succ]
  unfold evaluate_cell_body
  rw [if_neg h1, h2]

theorem eval_step_uncached {f : ℕ} {t : Table} {c r : ℕ} {chain : List (ℕ × ℕ)}
    {s : String} {e : Expr} (h1 : (c, r) ∉ chain)
    (h2 : t.cells[c * t.rows + r]? = some (.ok { source := s, kind := .expr e none })) :
    evaluate_cell (f + 1) t c r chain =
      match exprEval (fun t2 c2 r2 => evaluate_cell f t2 c2 r2 ((c, r) :: chain)) e t with
      | (t1, .crash k) => (t1, .crash k)
      | (t1, .val res) =>
        (Table.mk t1.rows t1.cols (t1.cells.set (c * t.rows + r)
            (.ok { source := s, kind := .expr e (some res) })), .val res) := by
  rw [evaluate_cell_succ]
  unfold evaluate_cell_body
  rw [if_neg h1, h2]

theorem exprEval_literal_cellRef (lookup : Table → ℕ → ℕ → Table × EvalOut)
    (c r : ℕ) (t : Table) :
    exprEval lookup (.literal (.cellRef c r)) t = lookup t c r := rfl

/-- Full characterization of the uncached-`Expr` branch of
`evaluate_cell`: when it returns a value (no crash), the final table is
the dependency-evaluated table with exactly one slot replaced — the read
slot, re-written with the same source, the same expression, and the
computed outcome as the new cached result. -/
theorem evaluate_cell_uncached_result {fuel : ℕ} {t : Table} {c r : ℕ}
    {chain : List (ℕ × ℕ)} {s : String} {e : Expr} {t2 : Table}
    {res : Except TableError ℚ} (h1 : (c, r) ∉ chain)
    (h2 : t.cells[c * t.rows + r]? = some (.ok ⟨s, .expr e none⟩))
    (h3 : evaluate_cell (fuel + 1) t c r chain = (t2, .val res)) :
    t2 = Table.mk
      (exprEval (fun t3 c3 r3 => evaluate_cell fuel t3 c3 r3 ((c, r) :: chain)) e t).1.rows
      (exprEval (fun t3 c3 r3 => evaluate_cell fuel t3 c3 r3 ((c, r) :: chain)) e t).1.cols
      ((exprEval (fun t3 c3 r3 => evaluate_cell fuel t3 c3 r3 ((c, r) :: chain)) e t).1.cells.set
        (c * t.rows + r) (.ok ⟨s, .expr e (some res)⟩)) := by
  rw [eval_step_uncached h1 h2] at h3
  rcases hE : exprEval (fun t3 c3 r3 => evaluate_cell fuel t3 c3 r3 ((c, r) :: chain)) e t
    with ⟨t1, o⟩
  rw [hE] at h3
  cases o with
  | crash k => simp at h3
  | val res2 =>
    have hfst := congrArg Prod.fst h3
    have hsnd := congrArg Prod.snd h3
    simp only [] at hfst hsnd
    have hres : res2 = res := by
      injection hsnd
    subst hres
    exact hfst.symm

/-! ## The run driver: settled slots and idempotence -/

/-- A stored slot that is an `Expr` cell with no cached result yet. -/
def uncachedSlot (v : Except TableError Cell) : Prop :=
  ∃ s e, v = .ok ⟨s, .expr e none⟩

/-- Slot `i` exists and is not an uncached formula — an `Err` entry, a
literal, an empty cell, or a formula whose result is memoized. -/
def settledAt (t : Table) (i : ℕ) : Prop :=
  ∃ v, t.cells[i]? = some v ∧ ¬uncachedSlot v

theorem settled_set {t : Table} {i j : ℕ} {s : String} {e : Expr}
    {res : Except TableError ℚ} (h : settledAt t i) :
    settledAt { t with cells := t.cells.set j (.ok ⟨s, .expr e (some res)⟩) } i := by
  rcases h with ⟨v, hv, hnv⟩
  by_cases hji : j = i
  · subst hji
    have hlt : j < t.cells.length := (List.getElem?_eq_some_iff.mp hv).1
    refine ⟨.ok ⟨s, .expr e (some res)⟩, ?_, ?_⟩
    · show (t.cells.set j _)[j]? = _
      rw [List.getElem?_set_self (by simpa using hlt)]
    · rintro ⟨s2, e2, hv2⟩
      cases hv2
  · exact ⟨v, by show (t.cells.set j _)[i]? = _; rw [List.getElem?_set_ne hji]; exact hv, hnv⟩

theorem evaluate_cell_preserves_settled (i fuel : ℕ) (t : Table) (c r : ℕ)
    (chain : List (ℕ × ℕ)) (h : settledAt t i) :
    settledAt (evaluate_cell fuel t c r chain).1 i :=
  evaluate_cell_preserves (fun t2 => settledAt t2 i)
    (fun _ _ _ _ _ h2 => settled_set h2) fuel t c r chain h

theorem exprEval_run_preserves_settled (i fuel : ℕ) (e : Expr) (t : Table)
    (h : settledAt t i) :
    settledAt (exprEval (fun t2 c2 r2 => evaluate_cell fuel t2 c2 r2 []) e t).1 i :=
  exprEval_preserves (fun t2 => settledAt t2 i) _
    (fun t2 c2 r2 h2 => evaluate_cell_preserves_settled i fuel t2 c2 r2 [] h2) e t h

theorem runStep_absorb (fuel : ℕ) (t : Table) (k : CrashKind) (p : ℕ × ℕ) :
    runStep fuel (t, some k) p = (t, some k) := rfl

theorem foldl_runStep_absorb (fuel : ℕ) (l : List (ℕ × ℕ)) (t : Table) (k : CrashKind) :
    l.foldl (runStep fuel) (t, some k) = (t, some k) := by
  induction l with
  | nil => rfl
  | cons p l ih => rw [List.foldl_cons, runStep_absorb, ih]

theorem runStep_preserves_settled (i fuel : ℕ) (st : Table × Option CrashKind)
    (p : ℕ × ℕ) (h : settledAt st.1 i) : settledAt (runStep fuel st p).1 i := by
  rcases st with ⟨t, k⟩
  cases k with
  | some k => exact h
  | none =>
    unfold runStep
    dsimp only
    split
    next => exact h
    next e2 heq2 => exact h
    next cell heq2 =>
      split
      next e2 heq3 =>
        split
        next t1 k2 heq4 =>
          have hp := exprEval_run_preserves_settled i fuel e2 t h
          rw [heq4] at hp
          exact hp
        next t1 res heq4 =>
          have hp := exprEval_run_preserves_settled i fuel e2 t h
          rw [heq4] at hp
          exact settled_set hp
      next hk => exact h

theorem runStep_preserves_dims (fuel : ℕ) (st : Table × Option CrashKind) (p : ℕ × ℕ) :
    dims (runStep fuel st p).1 = dims st.1 := by
  rcases st with ⟨t, k⟩
  cases k with
  | some k => rfl
  | none =>
    unfold runStep
    dsimp only
    split
    next => rfl
    next e2 heq2 => rfl
    next cell heq2 =>
      split
      next e2 heq3 =>
        split
        next t1 k2 heq4 =>
          have hp := exprEval_dims fuel [] e2 t
          rw [heq4] at hp
          exact hp
        next t1 res heq4 =>
          have hp := exprEval_dims fuel [] e2 t
          rw [heq4] at hp
          simpa [dims, List.length_set] using hp
      next hk => rfl

theorem foldl_runStep_dims (fuel : ℕ) (l : List (ℕ × ℕ)) (st : Table × Option CrashKind) :
    dims (l.foldl (runStep fuel) st).1 = dims st.1 := by
  induction l generalizing st with
  | nil => rfl
  | cons p l ih => rw [List.foldl_cons, ih, runStep_preserves_dims]

theorem foldl_runStep_preserves_settled (i fuel : ℕ) (l : List (ℕ × ℕ))
    (st : Table × Option CrashKind) (h : settledAt st.1 i) :
    settledAt ((l.foldl (runStep fuel) st)).1 i := by
  induction l generalizing st with
  | nil => exact h
  | cons p l ih =>
    rw [List.foldl_cons]
    exact ih _ (runStep_preserves_settled i fuel st p h)

/-- A successful (non-crashing) `runStep` leaves its own coordinate's
slot settled. -/
theorem runStep_settles_self (fuel : ℕ) (t t1 : Table) (p : ℕ × ℕ)
    (h : runStep fuel (t, none) p = (t1, none)) :
    settledAt t1 (p.1 * t.rows + p.2) := by
  unfold runStep at h
  dsimp only at h
  revert h
  split
  next heq => intro h; simp at h
  next e2 heq => intro h
                 cases h
                 exact ⟨.error e2, heq, by rintro ⟨s2, e3, hv2⟩; cases hv2⟩
  next cell heq =>
    split
    next e2 heq2 =>
      split
      next t2 k2 heq3 => intro h; simp at h
      next t2 res heq3 =>
        intro h
        cases h
        have hlt : p.1 * t.rows + p.2 < t.cells.length :=
          (List.getElem?_eq_some_iff.mp heq).1
        have hlen : t2.cells.length = t.cells.length := by
          have hp := exprEval_dims fuel [] e2 t
          rw [heq3] at hp
          exact congrArg (fun q => q.2.2) hp
        refine ⟨.ok ⟨cell.source, .expr e2 (some res)⟩, ?_, ?_⟩
        · show (t2.cells.set (p.1 * t.rows + p.2) _)[p.1 * t.rows + p.2]? = _
          rw [List.getElem?_set_self (by rw [hlen]; exact hlt)]
        · rintro ⟨s2, e3, hv2⟩
          cases hv2
    next hk =>
      intro h
      cases h
      refine ⟨_, heq, ?_⟩
      rintro ⟨s2, e3, hv2⟩
      cases hv2
      exact hk e3 rfl

/-- If a run over a pair list finishes without crashing, every visited
coordinate's slot is settled in the final table. -/
theorem run_settles (fuel : ℕ) (R : ℕ) :
    ∀ (l : List (ℕ × ℕ)) (t : Table), t.rows = R →
      (l.foldl (runStep fuel) (t, none)).2 = none →
      ∀ p ∈ l, settledAt (l.foldl (runStep fuel) (t, none)).1 (p.1 * R + p.2) := by
  intro l
  induction l with
  | nil => intro t hR hnone p hp; cases hp
  | cons p l ih =>
    intro t hR hnone q hq
    rw [List.foldl_cons] at hnone ⊢
    rcases h1 : runStep fuel (t, none) p with ⟨t1, st1⟩
    rw [h1] at hnone
    cases st1 with
    | some k => rw [foldl_runStep_absorb] at hnone; cases hnone
    | none =>
      have hR1 : t1.rows = R := by
        have hd := runStep_preserves_dims fuel (t, none) p
        rw [h1] at hd
        rw [← hR]
        exact congrArg (fun q => q.1) hd
      rcases List.mem_cons.mp hq with hqp | hql
      · subst hqp
        have hst : settledAt t1 (q.1 * t.rows + q.2) := runStep_settles_self fuel t t1 q h1
        rw [hR] at hst
        exact foldl_runStep_preserves_settled _ fuel l (t1, none) hst
      · exact ih t1 hR1 hnone q hql

/-- Running over a pair list in which every coordinate is already settled
does nothing. -/
theorem run_noop (fuel : ℕ) :
    ∀ (l : List (ℕ × ℕ)) (t : Table),
      (∀ p ∈ l, settledAt t (p.1 * t.rows + p.2)) →
      l.foldl (runStep fuel) (t, none) = (t, none) := by
  intro l
  induction l with
  | nil => intro t _; rfl
  | cons p l ih =>
    intro t h
    rw [List.foldl_cons]
    rcases h p (List.mem_cons_self p l) with ⟨v, hv, hnv⟩
    have hstep : runStep fuel (t, none) p = (t, none) := by
      unfold runStep
      dsimp only
      rw [hv]
      rcases v with e2 | cell
      · rfl
      · dsimp only
        rcases hkind : cell.kind with _ | ⟨e2, r2⟩ | d
        · rfl
        · rcases r2 with _ | r2
          · exfalso
            apply hnv
            refine ⟨cell.source, e2, ?_⟩
            rw [← hkind]
          · rfl
        · rfl
    rw [hstep]
    exact ih t (fun q hq => h q (List.mem_cons_of_mem p hq))

/-! ## Termination: a fuel bound that is never exhausted -/

/-- The coordinates that address into the cell vector: `(c, r)` with
`c * rows + r < length`.  Only such coordinates can appear in a call
chain (any other coordinate panics on the index before recursing), so
their number bounds the recursion depth. -/
def boundedCoords (t : Table) : Finset (ℕ × ℕ) :=
  ((Finset.range t.cells.length) ×ˢ (Finset.range t.cells.length)).filter
    (fun p => p.1 * t.rows + p.2 < t.cells.length)

/-- The depth bound: the number of coordinates addressing into the cell
vector.  It can exceed the number of cells, because distinct coordinates
alias the same flat index when a row index exceeds the grid height. -/
def chainBound (t : Table) : ℕ := (boundedCoords t).card

theorem chainBound_dims {t1 t2 : Table} (h : dims t1 = dims t2) :
    chainBound t1 = chainBound t2 := by
  have hrows : t1.rows = t2.rows := congrArg (fun q => q.1) h
  have hlen : t1.cells.length = t2.cells.length := congrArg (fun q => q.2.2) h
  unfold chainBound boundedCoords
  rw [hrows, hlen]

theorem exprEval_no_fuelOut (lookup : Table → ℕ → ℕ → Table × EvalOut)
    (d : ℕ × ℕ × ℕ)
    (hl : ∀ t2 c2 r2, dims t2 = d →
      (lookup t2 c2 r2).2 ≠ .crash .fuelOut ∧ dims (lookup t2 c2 r2).1 = d) :
    ∀ (e : Expr) (t : Table), dims t = d →
      (exprEval lookup e t).2 ≠ .crash .fuelOut ∧ dims (exprEval lookup e t).1 = d := by
  intro e
  induction e with
  | binary l op r ihl ihr =>
    intro t hd
    rw [exprEval]
    split
    next t1 k heq =>
      have h := ihl t hd
      rw [heq] at h
      exact h
    next t1 e1 heq =>
      have h := ihl t hd
      rw [heq] at h
      exact ⟨by simp, h.2⟩
    next t1 lv heq =>
      have h1 := ihl t hd
      rw [heq] at h1
      split
      next t2 k2 heq2 =>
        have h := ihr t1 h1.2
        rw [heq2] at h
        exact h
      next t2 e2 heq2 =>
        have h := ihr t1 h1.2
        rw [heq2] at h
        exact ⟨by simp, h.2⟩
      next t2 rv heq2 =>
        have h2 := ihr t1 h1.2
        rw [heq2] at h2
        cases op <;> try exact ⟨by simp, h2.2⟩
        rcases eq_or_ne rv 0 with hrv | hrv
        · rw [if_pos hrv]
          exact ⟨by simp, h2.2⟩
        · rw [if_neg hrv]
          exact ⟨by simp, h2.2⟩
  | grouping inner ih =>
    intro t hd
    rw [exprEval]
    exact ih t hd
  | literal tok =>
    intro t hd
    cases tok
    case cellRef c2 r2 => exact hl t c2 r2 hd
    all_goals exact ⟨fun hcontra => EvalOut.noConfusion hcontra, hd⟩
  | unary op r ih =>
    intro t hd
    rw [exprEval]
    split
    next t1 k heq =>
      have h := ih t hd
      rw [heq] at h
      exact h
    next t1 e1 heq =>
      have h := ih t hd
      rw [heq] at h
      exact ⟨by simp, h.2⟩
    next t1 rv heq =>
      have h1 := ih t hd
      rw [heq] at h1
      cases op <;> exact ⟨by simp, h1.2⟩

/-- With fuel exceeding `chainBound t` minus the chain already built,
`evaluate_cell` never runs out of fuel: the call-chain check forces the
chain to grow with distinct in-index-bounds coordinates, of which there
are only `chainBound t`. -/
theorem evaluate_cell_no_fuelOut :
    ∀ (fuel : ℕ) (t : Table) (c r : ℕ) (chain : List (ℕ × ℕ)),
      1 ≤ t.rows →
      chain.Nodup →
      (∀ p ∈ chain, p.1 * t.rows + p.2 < t.cells.length) →
      chainBound t + 1 ≤ fuel + chain.length →
      (evaluate_cell fuel t c r chain).2 ≠ .crash .fuelOut := by
  intro fuel
  induction fuel with
  | zero =>
    intro t c r chain hrows hnodup hbounds harith
    exfalso
    have hsub : chain.toFinset ⊆ boundedCoords t := by
      intro p hp
      have hpc := hbounds p (List.mem_toFinset.mp hp)
      have hp1 : p.1 < t.cells.length := by
        have : p.1 * 1 ≤ p.1 * t.rows := Nat.mul_le_mul_left p.1 hrows
        omega
      have hp2 : p.2 < t.cells.length := by omega
      unfold boundedCoords
      rw [Finset.mem_filter, Finset.mem_product, Finset.mem_range, Finset.mem_range]
      exact ⟨⟨hp1, hp2⟩, hpc⟩
    have hcard : chain.toFinset.card = chain.length :=
      List.toFinset_card_of_nodup hnodup
    have hle : chain.toFinset.card ≤ chainBound t := Finset.card_le_card hsub
    simp only [Nat.zero_add] at harith
    omega
  | succ f ih =>
    intro t c r chain hrows hnodup hbounds harith
    rw [evaluate_cell_succ]
    unfold evaluate_cell_body
    split
    · simp
    next hmem =>
      split
      next => simp
      next e2 heq => simp
      next cell heq =>
        split
        next => simp
        next d2 heq2 => simp
        next e2 res heq2 => simp
        next e2 heq2 =>
          have hidx : c * t.rows + r < t.cells.length :=
            (List.getElem?_eq_some_iff.mp heq).1
          have hexpr := exprEval_no_fuelOut
            (fun t3 c3 r3 => evaluate_cell f t3 c3 r3 ((c, r) :: chain)) (dims t)
            (fun t2 c2 r2 hd2 => by
              have hrows2 : t2.rows = t.rows := congrArg (fun q => q.1) hd2
              have hlen2 : t2.cells.length = t.cells.length :=
                congrArg (fun q => q.2.2) hd2
              constructor
              · apply ih t2 c2 r2 ((c, r) :: chain)
                · rw [hrows2]; exact hrows
                · exact List.nodup_cons.mpr ⟨hmem, hnodup⟩
                · intro p hp
                  rw [hrows2, hlen2]
                  rcases List.mem_cons.mp hp with hpc | hpc
                  · subst hpc; exact hidx
                  · exact hbounds p hpc
                · rw [chainBound_dims hd2]
                  simpa [Nat.add_comm, Nat.add_assoc, Nat.add_left_comm] using harith
              · exact (evaluate_cell_dims f t2 c2 r2 ((c, r) :: chain)).trans hd2)
            e2 t rfl
          split
          next t1 k heq3 =>
            rw [heq3] at hexpr
            exact hexpr.1
          next t1 res heq3 => simp

/-! ## Concrete scenarios -/

/-- The resolved value visible in a table slot: a literal number's value,
or a formula cell's cached outcome. -/
def cellValue (entry : Except TableError Cell) : Option (Except TableError ℚ) :=
  match entry with
  | .error _ => none
  | .ok c =>
    match c.kind with
    | .number d => some (.ok d)
    | .expr _ (some res) => some res
    | _ => none

/-- The end-to-end scenario input grid of §8, as the raw source text
`new_interpet` receives. -/
def c1Source : String := "1|2\n=a1+a2|=b1+3"

/-- Build the §8 scenario table, run the full evaluation driver, and read
back every slot's resolved value (in storage order) together with the
run's crash status. -/
def c1Result : Option (List (Option (Except TableError ℚ)) × Option CrashKind) :=
  match new_interpet c1Source with
  | .res (.ok t) => some ((Table.run 32 t).1.cells.map cellValue, (Table.run 32 t).2)
  | _ => none

/-- The 2×2 table whose evaluation from cell (0,0) visits five distinct
coordinates — one more than the table has cells — because the coordinate
(0,3) (reference `a4`) aliases the in-bounds flat index `0*2+3 = 3` even
though the grid only has 2 rows. -/
def t8Source : String := "=a2|=a3\n=a4|=b1"

/-- Evaluate cell (0,0) of the `t8Source` table with the given recursion
fuel (`evaluate_cell` spends one fuel unit per nested invocation, so fuel
`n` admits a recursion depth of `n`). -/
def t8Eval (fuel : ℕ) : Option EvalOut :=
  match new_interpet t8Source with
  | .res (.ok t) => some (evaluate_cell fuel t 0 0 []).2
  | _ => none

/-! ## Lemmas about the lexer's maximal-run chopping -/

theorem digit_not_alpha {c : Char} (h : c.isDigit) : c.isAlpha = false := by
  simp only [Char.isDigit, Bool.and_eq_true, decide_eq_true_eq, ge_iff_le] at h
  simp only [Char.isAlpha, Char.isUpper, Char.isLower, Bool.or_eq_false_iff,
    Bool.and_eq_false_iff, decide_eq_false_iff_not, ge_iff_le, UInt32.not_le]
  rcases h with ⟨h1, h2⟩
  rw [UInt32.le_def, BitVec.le_def] at h1 h2
  have e48 : (UInt32.toBitVec 48).toNat = 48 := rfl
  have e57 : (UInt32.toBitVec 57).toNat = 57 := rfl
  rw [e48] at h1
  rw [e57] at h2
  have e65 : (UInt32.toBitVec 65).toNat = 65 := rfl
  have e97 : (UInt32.toBitVec 97).toNat = 97 := rfl
  constructor
  · left
    rw [UInt32.lt_def, BitVec.lt_def, e65]
    omega
  · left
    rw [UInt32.lt_def, BitVec.lt_def, e97]
    omega

theorem takeWhile_append_all {p : Char → Bool} {L rest : List Char}
    (h : ∀ c ∈ L, p c) : (L ++ rest).takeWhile p = L ++ rest.takeWhile p := by
  induction L with
  | nil => simp
  | cons a l ih =>
    have ha : p a := h a (List.mem_cons_self a l)
    simp only [List.cons_append, List.takeWhile_cons_of_pos ha, List.cons_inj_right]
    exact ih (fun c hc => h c (List.mem_cons_of_mem a hc))

theorem dropWhile_append_all {p : Char → Bool} {L rest : List Char}
    (h : ∀ c ∈ L, p c) : (L ++ rest).dropWhile p = rest.dropWhile p := by
  induction L with
  | nil => simp
  | cons a l ih =>
    have ha : p a := h a (List.mem_cons_self a l)
    simp only [List.cons_append, List.dropWhile_cons_of_pos ha]
    exact ih (fun c hc => h c (List.mem_cons_of_mem a hc))

theorem takeWhile_eq_nil_of_head {p : Char → Bool} {l : List Char}
    (h : ∀ c, l.head? = some c → p c = false) : l.takeWhile p = [] := by
  cases l with
  | nil => rfl
  | cons a l =>
    have hpa : ¬p a = true := by simp [h a rfl]
    simp [List.takeWhile_cons_of_neg hpa]

theorem dropWhile_eq_self_of_head {p : Char → Bool} {l : List Char}
    (h : ∀ c, l.head? = some c → p c = false) : l.dropWhile p = l := by
  cases l with
  | nil => rfl
  | cons a l =>
    have hpa : ¬p a = true := by simp [h a rfl]
    simp [List.dropWhile_cons_of_neg hpa]

/-- The behaviour of `Tokenizer::parse_cell_reference` on an input whose
front is a nonempty alphabetic run `L` followed by a nonempty digit run
`D` followed by anything not starting with a digit: the column is the
base-26 value of `L` minus one, the row the decimal value of `D` minus
one (row value 0 rejected), the remainder untouched. -/
theorem parse_cell_reference_spec (L D rest : List Char)
    (hL : L ≠ []) (hLa : ∀ c ∈ L, c.isAlpha)
    (hD : D ≠ []) (hDd : ∀ c ∈ D, c.isDigit)
    (hrest : ∀ c, rest.head? = some c → c.isDigit = false) :
    parse_cell_reference (L ++ (D ++ rest)) =
      if digitsToNat D = 0 then
        .error (.invalidCell "Could not parse cell reference")
      else
        .ok ((decodeCol L - 1, digitsToNat D - 1), rest) := by
  have hDna : ∀ c, (D ++ rest).head? = some c → c.isAlpha = false := by
    intro c hc
    cases D with
    | nil => exact absurd rfl hD
    | cons d ds =>
      simp only [List.cons_append, List.head?_cons, Option.some.injEq] at hc
      subst hc
      exact digit_not_alpha (hDd d (List.mem_cons_self d ds))
  have h1 : (L ++ (D ++ rest)).takeWhile Char.isAlpha = L := by
    rw [takeWhile_append_all hLa, takeWhile_eq_nil_of_head hDna, List.append_nil]
  have h2 : (L ++ (D ++ rest)).dropWhile Char.isAlpha = D ++ rest := by
    rw [dropWhile_append_all hLa, dropWhile_eq_self_of_head hDna]
  have h3 : (D ++ rest).takeWhile Char.isDigit = D := by
    rw [takeWhile_append_all hDd, takeWhile_eq_nil_of_head hrest, List.append_nil]
  have h4 : (D ++ rest).dropWhile Char.isDigit = rest := by
    rw [dropWhile_append_all hDd, dropWhile_eq_self_of_head hrest]
  unfold parse_cell_reference
  simp only [h1, h2, h3, h4]
  rw [if_neg hL, if_neg hD]

end Rxl

namespace Rxl

/-- C1: the spec's end-to-end scenario claims the input grid
`[["1","2"],["=a1+a2","=b1+3"]]` evaluates to `[[1,2],[3,5]]`.  The code
disagrees: `new_interpet` fills the cell vector row-major (line by line)
but `evaluate_cell` and `run` address it by `col * rows + row`
(column-major), so the reference `b1` = (col 1, row 0) resolves to flat
index `1*2+0 = 2`, which holds the `=a1+a2` cell (value 3) rather than
the literal `2`; hence `=b1+3` evaluates to 6, not 5.  The literal cells
and `=a1+a2` do match the spec ([1,2,3,_]). -/
theorem c1_run_produces_six_not_five :
    c1Result = some ([some (.ok 1), some (.ok 2), some (.ok 3), some (.ok 6)], none) ∧
    (6 : ℚ) ≠ 5 := by
  exact ⟨by decide, by norm_num⟩

/-- C8 (amended): evaluation of any cell of any table (with at least one
row) terminates — with fuel exceeding `chainBound t`, the number of
coordinate pairs that address into the cell vector, `evaluate_cell`
never exhausts its fuel, because the ancestor call-chain check makes
every recursive descent insert a fresh in-index-bounds coordinate.  The
bound is `chainBound t`, not the number of cells: coordinates whose row
exceeds the grid height alias in-bounds flat indices, so the chain can
grow past the cell count (see the counterexample). -/
theorem c8_evaluation_terminates :
    ∀ (t : Table) (c r fuel : ℕ),
      1 ≤ t.rows →
      chainBound t + 1 ≤ fuel →
      (evaluate_cell fuel t c r []).2 ≠ .crash .fuelOut := by
  intro t c r fuel hrows hfuel
  exact evaluate_cell_no_fuelOut fuel t c r [] hrows List.nodup_nil
    (fun p hp => absurd hp (List.not_mem_nil p)) (by simpa using hfuel)

/-- Witness for C8's amended theorem: the `t8Source` table (4 cells,
`chainBound` 6) evaluated with fuel 7 does not run out of fuel. -/
theorem c8_evaluation_terminates_witness :
    (evaluate_cell 7 (Table.mk 2 2
      [.ok ⟨"=a2", .expr (.literal (.cellRef 0 1)) none⟩,
       .ok ⟨"=a3", .expr (.literal (.cellRef 0 2)) none⟩,
       .ok ⟨"=a4", .expr (.literal (.cellRef 0 3)) none⟩,
       .ok ⟨"=b1", .expr (.literal (.cellRef 1 0)) none⟩]) 0 0 []).2 ≠
      .crash .fuelOut := by
  exact c8_evaluation_terminates _ 0 0 7 (by decide) (by decide)

/-- C2: in any table where cell A's formula is a reference to cell B and
B's formula is a reference to A, evaluating either cell (with a fresh
empty call chain, fuel at least 3) fails with a recursive-cell error
identifying one of the two coordinates (in fact the one evaluation
started from); and in any non-cyclic diamond — a root summing cells C and
D, which both reference the number cell E — evaluation of the root
succeeds with `n + n`, because each recursive descent passes a copy of
the ancestor chain, so the sibling branches through C and D never see
each other. -/
theorem c2_cycle_detected_and_diamond_allowed :
    (∀ (t : Table) (fuel ca ra cb rb : ℕ) (sa sb : String),
      3 ≤ fuel →
      (ca, ra) ≠ (cb, rb) →
      t.cells[ca * t.rows + ra]? =
        some (.ok ⟨sa, .expr (.literal (.cellRef cb rb)) none⟩) →
      t.cells[cb * t.rows + rb]? =
        some (.ok ⟨sb, .expr (.literal (.cellRef ca ra)) none⟩) →
      (evaluate_cell fuel t ca ra []).2 = .val (.error (.recursiveCellExpr ca ra)) ∧
      (evaluate_cell fuel t cb rb []).2 = .val (.error (.recursiveCellExpr cb rb))) ∧
    (∀ (t : Table) (fuel cg rg cc rc cd rd ce re : ℕ) (sg sc sd se : String) (n : ℚ),
      3 ≤ fuel →
      (cc, rc) ≠ (cg, rg) → (cd, rd) ≠ (cg, rg) →
      (ce, re) ≠ (cg, rg) → (ce, re) ≠ (cc, rc) → (ce, re) ≠ (cd, rd) →
      cc * t.rows + rc ≠ cd * t.rows + rd →
      cc * t.rows + rc ≠ ce * t.rows + re →
      t.cells[cg * t.rows + rg]? =
        some (.ok ⟨sg, .expr (.binary (.literal (.cellRef cc rc)) .plus
          (.literal (.cellRef cd rd))) none⟩) →
      t.cells[cc * t.rows + rc]? =
        some (.ok ⟨sc, .expr (.literal (.cellRef ce re)) none⟩) →
      t.cells[cd * t.rows + rd]? =
        some (.ok ⟨sd, .expr (.literal (.cellRef ce re)) none⟩) →
      t.cells[ce * t.rows + re]? = some (.ok ⟨se, .number n⟩) →
      (evaluate_cell fuel t cg rg []).2 = .val (.ok (n + n))) := by
  constructor
  · intro t fuel ca ra cb rb sa sb hfuel hne hA hB
    obtain ⟨k, rfl⟩ : ∃ k, fuel = k + 1 + 1 + 1 := ⟨fuel - 3, by omega⟩
    constructor
    · rw [eval_step_uncached (List.not_mem_nil _) hA, exprEval_literal_cellRef]
      have hBnot : (cb, rb) ∉ [(ca, ra)] := by
        simp only [List.mem_singleton]
        exact fun hc => hne (by rw [hc])
      rw [eval_step_uncached hBnot hB, exprEval_literal_cellRef]
      rw [eval_step_mem (by simp)]
    · rw [eval_step_uncached (List.not_mem_nil _) hB, exprEval_literal_cellRef]
      have hAnot : (ca, ra) ∉ [(cb, rb)] := by
        simp only [List.mem_singleton]
        exact fun hc => hne hc
      rw [eval_step_uncached hAnot hA, exprEval_literal_cellRef]
      rw [eval_step_mem (by simp)]
  · intro t fuel cg rg cc rc cd rd ce re sg sc sd se n hfuel hCG hDG hEG hEC hED
      hidxCD hidxCE hG hC hD hE
    obtain ⟨k, rfl⟩ : ∃ k, fuel = k + 1 + 1 + 1 := ⟨fuel - 3, by omega⟩
    have hCnot : (cc, rc) ∉ [(cg, rg)] := by
      simp only [List.mem_singleton]
      exact fun hc => hCG hc
    have hDnot : (cd, rd) ∉ [(cg, rg)] := by
      simp only [List.mem_singleton]
      exact fun hc => hDG hc
    have hEnot1 : (ce, re) ∉ [(cc, rc), (cg, rg)] := by
      intro hmem
      rcases List.mem_cons.mp hmem with h | h
      · exact hEC h
      · exact hEG (List.mem_singleton.mp h)
    have hEnot2 : (ce, re) ∉ [(cd, rd), (cg, rg)] := by
      intro hmem
      rcases List.mem_cons.mp hmem with h | h
      · exact hED h
      · exact hEG (List.mem_singleton.mp h)
    have hCstep : evaluate_cell (k + 1 + 1) t cc rc [(cg, rg)] =
        (Table.mk t.rows t.cols (t.cells.set (cc * t.rows + rc)
          (.ok ⟨sc, .expr (.literal (.cellRef ce re)) (some (.ok n))⟩)),
         .val (.ok n)) := by
      rw [eval_step_uncached hCnot hC, exprEval_literal_cellRef]
      rw [eval_step_number hEnot1 hE]
    have hD2 : (Table.mk t.rows t.cols (t.cells.set (cc * t.rows + rc)
        (.ok ⟨sc, .expr (.literal (.cellRef ce re)) (some (.ok n))⟩))).cells[
          cd * t.rows + rd]? =
        some (.ok ⟨sd, .expr (.literal (.cellRef ce re)) none⟩) := by
      show (t.cells.set (cc * t.rows + rc)
        (.ok ⟨sc, .expr (.literal (.cellRef ce re)) (some (.ok n))⟩))[
          cd * t.rows + rd]? = _
      rw [List.getElem?_set_ne hidxCD]
      exact hD
    have hE2 : (Table.mk t.rows t.cols (t.cells.set (cc * t.rows + rc)
        (.ok ⟨sc, .expr (.literal (.cellRef ce re)) (some (.ok n))⟩))).cells[
          ce * t.rows + re]? = some (.ok ⟨se, .number n⟩) := by
      show (t.cells.set (cc * t.rows + rc)
        (.ok ⟨sc, .expr (.literal (.cellRef ce re)) (some (.ok n))⟩))[
          ce * t.rows + re]? = _
      rw [List.getElem?_set_ne hidxCE]
      exact hE
    have hDstep : evaluate_cell (k + 1 + 1)
        (Table.mk t.rows t.cols (t.cells.set (cc * t.rows + rc)
          (.ok ⟨sc, .expr (.literal (.cellRef ce re)) (some (.ok n))⟩)))
        cd rd [(cg, rg)] =
        (Table.mk t.rows t.cols ((t.cells.set (cc * t.rows + rc)
          (.ok ⟨sc, .expr (.literal (.cellRef ce re)) (some (.ok n))⟩)).set
            (cd * t.rows + rd)
          (.ok ⟨sd, .expr (.literal (.cellRef ce re)) (some (.ok n))⟩)),
         .val (.ok n)) := by
      rw [eval_step_uncached hDnot hD2, exprEval_literal_cellRef]
      rw [eval_step_number hEnot2 hE2]
    rw [eval_step_uncached (List.not_mem_nil _) hG]
    rw [exprEval]
    rw [exprEval_literal_cellRef]
    rw [hCstep]
    dsimp only
    rw [exprEval_literal_cellRef]
    rw [hDstep]
    dsimp only
    have hq : qAdd n n = n + n := qAdd_eq n n
    rw [hq]

/-- Witness for C2: both halves applied to concrete tables — the cycle
half on a 2-cell column whose formula cells reference each other, the
diamond half on a 2×2 table with root `=a2+b1` over `a2 = b1 = "=b2"`
and `b2 = 7`. -/
theorem c2_cycle_detected_and_diamond_allowed_witness :
    (evaluate_cell 3 (Table.mk 2 1
      [.ok ⟨"=a2", .expr (.literal (.cellRef 0 1)) none⟩,
       .ok ⟨"=a1", .expr (.literal (.cellRef 0 0)) none⟩]) 0 0 []).2 =
      .val (.error (.recursiveCellExpr 0 0)) ∧
    (evaluate_cell 3 (Table.mk 2 2
      [.ok ⟨"=a2+b1", .expr (.binary (.literal (.cellRef 0 1)) .plus
          (.literal (.cellRef 1 0))) none⟩,
       .ok ⟨"=b2", .expr (.literal (.cellRef 1 1)) none⟩,
       .ok ⟨"=b2", .expr (.literal (.cellRef 1 1)) none⟩,
       .ok ⟨"7", .number 7⟩]) 0 0 []).2 = .val (.ok (7 + 7 : ℚ)) := by
  constructor
  · exact (c2_cycle_detected_and_diamond_allowed.1 _ 3 0 0 0 1 "=a2" "=a1"
      (by omega) (by decide) (by decide) (by decide)).1
  · exact c2_cycle_detected_and_diamond_allowed.2 _ 3 0 0 0 1 1 0 1 1
      "=a2+b1" "=b2" "=b2" "7" 7 (by omega) (by decide) (by decide) (by decide)
      (by decide) (by decide) (by decide) (by decide) (by decide) (by decide)
      (by decide) (by decide)

/-- C3: memoization.  (1) A formula cell with a cached outcome — success
or error alike, `res` is arbitrary — returns that outcome on every later
evaluation, leaving the table untouched (no recomputation, no new
writes).  (2) When `evaluate_cell` computes an uncached formula cell's
outcome, that outcome is stored in the cell's cache slot.  (3) The
memoized state is terminal: if the full-table driver completes (without
panicking), running it again changes nothing. -/
theorem c3_memoization_and_terminal :
    (∀ (fuel : ℕ) (t : Table) (c r : ℕ) (chain : List (ℕ × ℕ)) (s : String)
      (e : Expr) (res : Except TableError ℚ),
      (c, r) ∉ chain →
      t.cells[c * t.rows + r]? = some (.ok ⟨s, .expr e (some res)⟩) →
      evaluate_cell (fuel + 1) t c r chain = (t, .val res)) ∧
    (∀ (fuel : ℕ) (t : Table) (c r : ℕ) (chain : List (ℕ × ℕ)) (s : String)
      (e : Expr) (t2 : Table) (res : Except TableError ℚ),
      (c, r) ∉ chain →
      t.cells[c * t.rows + r]? = some (.ok ⟨s, .expr e none⟩) →
      evaluate_cell (fuel + 1) t c r chain = (t2, .val res) →
      t2.cells[c * t.rows + r]? = some (.ok ⟨s, .expr e (some res)⟩)) ∧
    (∀ (fuel fuel2 : ℕ) (t : Table),
      (Table.run fuel t).2 = none →
      Table.run fuel2 (Table.run fuel t).1 = ((Table.run fuel t).1, none)) := by
  refine ⟨?_, ?_, ?_⟩
  · intro fuel t c r chain s e res h1 h2
    exact eval_step_cached h1 h2
  · intro fuel t c r chain s e t2 res h1 h2 h3
    have ht2 := evaluate_cell_uncached_result h1 h2 h3
    subst ht2
    have hlt : c * t.rows + r < t.cells.length :=
      (List.getElem?_eq_some_iff.mp h2).1
    have hlen : (exprEval (fun t3 c3 r3 => evaluate_cell fuel t3 c3 r3 ((c, r) :: chain))
        e t).1.cells.length = t.cells.length :=
      congrArg (fun q => q.2.2) (exprEval_dims fuel ((c, r) :: chain) e t)
    show ((exprEval _ e t).1.cells.set (c * t.rows + r) _)[c * t.rows + r]? = _
    rw [List.getElem?_set_self (by rw [hlen]; exact hlt)]
  · intro fuel fuel2 t hnone
    have hd : dims (Table.run fuel t).1 = dims t := foldl_runStep_dims fuel _ (t, none)
    have hrows : (Table.run fuel t).1.rows = t.rows := congrArg (fun q => q.1) hd
    have hcols : (Table.run fuel t).1.cols = t.cols := congrArg (fun q => q.2.1) hd
    have hs := run_settles fuel t.rows (colMajorPairs t.cols t.rows) t rfl hnone
    show (colMajorPairs (Table.run fuel t).1.cols (Table.run fuel t).1.rows).foldl
        (runStep fuel2) ((Table.run fuel t).1, none) = ((Table.run fuel t).1, none)
    rw [hrows, hcols]
    apply run_noop fuel2 (colMajorPairs t.cols t.rows) (Table.run fuel t).1
    intro p hp
    rw [hrows]
    exact hs p hp

/-- Witness for C3: the three conjuncts applied to concrete one-cell
tables — a cached `=1` cell returning its stored 5 without recomputation,
an uncached `=1` cell whose computed result 1 lands in the cache, and a
completed run that is a no-op when repeated. -/
theorem c3_memoization_and_terminal_witness :
    evaluate_cell 1 (Table.mk 1 1
      [.ok ⟨"=1", .expr (.literal (.number 1)) (some (.ok 5))⟩]) 0 0 [] =
      (Table.mk 1 1 [.ok ⟨"=1", .expr (.literal (.number 1)) (some (.ok 5))⟩],
       .val (.ok 5)) ∧
    (Table.mk 1 1 [.ok ⟨"=1", .expr (.literal (.number 1))
        (some (.ok 1))⟩]).cells[0 * (1 : ℕ) + 0]? =
      some (.ok ⟨"=1", .expr (.literal (.number 1)) (some (.ok 1))⟩) ∧
    Table.run 5 (Table.run 5 (Table.mk 1 1
      [.ok ⟨"=1", .expr (.literal (.number 1)) none⟩])).1 =
      ((Table.run 5 (Table.mk 1 1
        [.ok ⟨"=1", .expr (.literal (.number 1)) none⟩])).1, none) := by
  refine ⟨?_, ?_, ?_⟩
  · exact c3_memoization_and_terminal.1 0 _ 0 0 [] "=1" (.literal (.number 1))
      (.ok 5) (by decide) (by decide)
  · exact c3_memoization_and_terminal.2.1 0
      (Table.mk 1 1 [.ok ⟨"=1", .expr (.literal (.number 1)) none⟩]) 0 0 []
      "=1" (.literal (.number 1))
      (Table.mk 1 1 [.ok ⟨"=1", .expr (.literal (.number 1)) (some (.ok 1))⟩])
      (.ok 1) (by decide) (by decide) (by decide)
  · exact c3_memoization_and_terminal.2.2 5 5 _ (by decide)

/-- C10: the write-back performed by `evaluate_cell` for an uncached
formula cell modifies only that cell's slot, and only its cached-result
field: relative to the table state produced by evaluating the cell's
dependencies, the written slot keeps the same source text and the same
parsed expression (gaining only the computed result), every other slot is
unchanged, and the table's row count, column count and cell-vector length
are unchanged. -/
theorem c10_write_back_frame :
    ∀ (fuel : ℕ) (t : Table) (c r : ℕ) (chain : List (ℕ × ℕ)) (s : String)
      (e : Expr) (t2 : Table) (res : Except TableError ℚ),
      (c, r) ∉ chain →
      t.cells[c * t.rows + r]? = some (.ok ⟨s, .expr e none⟩) →
      evaluate_cell (fuel + 1) t c r chain = (t2, .val res) →
      t2.rows = t.rows ∧ t2.cols = t.cols ∧ t2.cells.length = t.cells.length ∧
      t2.cells[c * t.rows + r]? = some (.ok ⟨s, .expr e (some res)⟩) ∧
      (∀ j, j ≠ c * t.rows + r →
        t2.cells[j]? = (exprEval (fun t3 c3 r3 =>
          evaluate_cell fuel t3 c3 r3 ((c, r) :: chain)) e t).1.cells[j]?) := by
  intro fuel t c r chain s e t2 res h1 h2 h3
  have ht2 := evaluate_cell_uncached_result h1 h2 h3
  have hd := exprEval_dims fuel ((c, r) :: chain) e t
  have hrows : (exprEval (fun t3 c3 r3 => evaluate_cell fuel t3 c3 r3 ((c, r) :: chain))
      e t).1.rows = t.rows := congrArg (fun q => q.1) hd
  have hcols : (exprEval (fun t3 c3 r3 => evaluate_cell fuel t3 c3 r3 ((c, r) :: chain))
      e t).1.cols = t.cols := congrArg (fun q => q.2.1) hd
  have hlen : (exprEval (fun t3 c3 r3 => evaluate_cell fuel t3 c3 r3 ((c, r) :: chain))
      e t).1.cells.length = t.cells.length := congrArg (fun q => q.2.2) hd
  have hlt : c * t.rows + r < t.cells.length := (List.getElem?_eq_some_iff.mp h2).1
  subst ht2
  refine ⟨hrows, hcols, ?_, ?_, ?_⟩
  · show ((exprEval _ e t).1.cells.set _ _).length = _
    rw [List.length_set]
    exact hlen
  · show ((exprEval _ e t).1.cells.set (c * t.rows + r) _)[c * t.rows + r]? = _
    rw [List.getElem?_set_self (by rw [hlen]; exact hlt)]
  · intro j hj
    show ((exprEval _ e t).1.cells.set (c * t.rows + r) _)[j]? = _
    rw [List.getElem?_set_ne (fun hc => hj hc.symm)]

/-- Witness for C10: applied to a one-cell table holding the uncached
formula `=1`; the write-back stores the result 1 in slot 0 and slot 1
(out of range on both sides) is untouched. -/
theorem c10_write_back_frame_witness :
    (Table.mk 1 1 [.ok ⟨"=1", .expr (.literal (.number 1))
        (some (.ok 1))⟩]).cells[0 * (1 : ℕ) + 0]? =
      some (.ok ⟨"=1", .expr (.literal (.number 1)) (some (.ok 1))⟩) ∧
    (Table.mk 1 1 [.ok ⟨"=1", .expr (.literal (.number 1))
        (some (.ok 1))⟩]).cells[1]? =
      (exprEval (fun t3 c3 r3 => evaluate_cell 0 t3 c3 r3 ((0, 0) :: []))
        (.literal (.number 1))
        (Table.mk 1 1 [.ok ⟨"=1", .expr (.literal (.number 1)) none⟩])).1.cells[1]? := by
  have h := c10_write_back_frame 0
    (Table.mk 1 1 [.ok ⟨"=1", .expr (.literal (.number 1)) none⟩]) 0 0 []
    "=1" (.literal (.number 1))
    (Table.mk 1 1 [.ok ⟨"=1", .expr (.literal (.number 1)) (some (.ok 1))⟩])
    (.ok 1) (by decide) (by decide) (by decide)
  exact ⟨h.2.2.2.1, h.2.2.2.2 1 (by decide)⟩

/-- C4: `sum` is tokenized but not supported beyond tokenization.  The
`Expr` type of `ast.rs` has no `Call` variant (the `Expr::call` used by
`parser.rs` does not exist, so the crate does not even compile), the
parser reachable from `Cell::new_expr` (the one in `ast.rs`) rejects a
`Sum` token in primary position, and `Expr::eval` maps `Literal(Sum)` and
`Literal(CellRange)` to a runtime error.  So `=sum(a1:b22)` cannot be
evaluated, let alone visit 44 cells. -/
theorem c4_sum_unsupported :
    (∃ m, new_expr "=sum(a1:b22)" = .res (.error (.errorConstructingAst m))) ∧
    (∀ lookup t, exprEval lookup (.literal .sum) t =
      (t, .val (.error (.runtimeError "invalid token literal")))) ∧
    (∀ lookup t cs ce rs re, exprEval lookup (.literal (.cellRange cs ce rs re)) t =
      (t, .val (.error (.runtimeError "invalid token literal")))) := by
  refine ⟨⟨_, rfl⟩, fun lookup t => rfl, fun lookup t cs ce rs re => rfl⟩

/-- C5: cell construction does not always return an explicit error value:
a leading character that is neither `=` nor a digit hits
`unimplemented!("Unimplemented cell kind")`, which panics (crashes the
process) instead of returning the claimed unimplemented-kind error.  The
other three branches behave as claimed: empty text yields an `Empty`
cell, `=`-prefixed text is lexed and parsed with parse failures returned
as error values, and digit-leading text parses as a literal number. -/
theorem c5_unimplemented_is_a_panic :
    new_expr "hello" = .crash .unimpl ∧
    new_expr "" = .res (.ok { source := "", kind := .empty }) ∧
    new_expr "12.5" = .res (.ok { source := "12.5", kind := .number (mkRat 25 2) }) ∧
    (∃ m, new_expr "=)" = .res (.error (.errorConstructingAst m))) := by
  refine ⟨by decide, by decide, by decide, ⟨_, rfl⟩⟩

/-- C7 counterexample: the range `b2:a1` (corners written larger-first)
lexes to column bound `[1,1)` and row bound `[1,1)` — `start` is the
first corner's index and `end` the second corner's plus one — not the
claimed `[min,max)` = `[0,2)` spanning both corners. -/
theorem c7_reversed_corners_counterexample :
    tokenize "b2:a1".toList = [.ok (.cellRange 1 1 1 1)] ∧
    ¬((1 : ℕ) = min 1 0 ∧ (1 : ℕ) = max 1 0 + 1) := by
  exact ⟨by decide, by decide⟩

/-- C8 counterexample: the `t8Source` table has 4 cells, yet evaluating
cell (0,0) needs a recursion depth of 6 nested `evaluate_cell` calls
(fuel 4 and even fuel 5 are exhausted; fuel 6 completes, with the cycle
error at the aliased coordinate (0,3)).  The call-chain check therefore
does **not** bound the recursion depth by the number of cells: distinct
coordinates such as (0,3) and (1,1) alias the same flat index when a
reference's row exceeds the grid height. -/
theorem c8_depth_exceeds_cell_count :
    t8Eval 4 = some (.crash .fuelOut) ∧
    t8Eval 5 = some (.crash .fuelOut) ∧
    t8Eval 6 = some (.val (.error (.recursiveCellExpr 0 3))) := by
  exact ⟨by decide, by decide, by decide⟩

/-- C6: a lexed cell reference decodes its maximal alphabetic run as a
base-26, 1-indexed, zero-digit-free column (`a`→1, `z`→26, `aa`→27 — the
values of `decodeCol`), stored 0-indexed by subtracting 1, and the
following maximal digit run as a 1-indexed row stored 0-indexed, with row
0 rejected as an `InvalidCell` error; `aa12` lexes to `(26, 11)` and `a1`
to `(0, 0)`. -/
theorem c6_cell_reference_decoding :
    (∀ (L D rest : List Char),
      L ≠ [] → (∀ c ∈ L, c.isAlpha) → D ≠ [] → (∀ c ∈ D, c.isDigit) →
      (∀ c, rest.head? = some c → c.isDigit = false) →
      parse_cell_reference (L ++ (D ++ rest)) =
        if digitsToNat D = 0 then
          .error (.invalidCell "Could not parse cell reference")
        else
          .ok ((decodeCol L - 1, digitsToNat D - 1), rest)) ∧
    decodeCol ['a'] = 1 ∧ decodeCol ['z'] = 26 ∧ decodeCol ['a', 'a'] = 27 ∧
    tokenize "aa12".toList = [.ok (.cellRef 26 11)] ∧
    tokenize "a1".toList = [.ok (.cellRef 0 0)] ∧
    parse_cell_reference "a0".toList =
      .error (.invalidCell "Could not parse cell reference") := by
  exact ⟨parse_cell_reference_spec, by decide, by decide, by decide,
    by decide, by decide, by decide⟩

/-- Witness for C6: the universal part applied to the reference `b3`,
whose hypotheses are discharged concretely. -/
theorem c6_cell_reference_decoding_witness :
    parse_cell_reference (['b'] ++ (['3'] ++ [])) = .ok ((1, 2), []) := by
  have h := c6_cell_reference_decoding.1 ['b'] ['3'] []
    (by decide) (by intro c hc; simp at hc; subst hc; decide)
    (by decide) (by intro c hc; simp at hc; subst hc; decide)
    (by intro c hc; cases hc)
  rw [h]
  decide

/-- C7 (amended): the `CellRange` built from `REF1:REF2` has column bound
`[col1, col2 + 1)` and row bound `[row1, row2 + 1)` where `(col1, row1)`
is the first-written corner and `(col2, row2)` the second — i.e. the
bounds run from the first corner to the second corner plus one, which
coincides with `[min, max)` only when the first corner's indices are the
smaller ones. -/
theorem c7_range_bounds_first_to_second :
    ∀ (L1 D1 L2 D2 rest : List Char),
      L1 ≠ [] → (∀ c ∈ L1, c.isAlpha) → D1 ≠ [] → (∀ c ∈ D1, c.isDigit) →
      L2 ≠ [] → (∀ c ∈ L2, c.isAlpha) → D2 ≠ [] → (∀ c ∈ D2, c.isDigit) →
      (∀ c, rest.head? = some c → c.isDigit = false) →
      digitsToNat D1 ≠ 0 → digitsToNat D2 ≠ 0 →
      cell_reference (L1 ++ (D1 ++ (':' :: (L2 ++ (D2 ++ rest))))) =
        .ok (.cellRange (decodeCol L1 - 1) ((decodeCol L2 - 1) + 1)
              (digitsToNat D1 - 1) ((digitsToNat D2 - 1) + 1), rest) := by
  intro L1 D1 L2 D2 rest hL1 hL1a hD1 hD1d hL2 hL2a hD2 hD2d hrest hN1 hN2
  have hcolon : ∀ c, (':' :: (L2 ++ (D2 ++ rest))).head? = some c →
      c.isDigit = false := by
    intro c hc
    simp only [List.head?_cons, Option.some.injEq] at hc
    subst hc
    decide
  have s1 := parse_cell_reference_spec L1 D1 (':' :: (L2 ++ (D2 ++ rest)))
    hL1 hL1a hD1 hD1d hcolon
  have s2 := parse_cell_reference_spec L2 D2 rest hL2 hL2a hD2 hD2d hrest
  unfold cell_reference
  rw [s1, if_neg hN1]
  simp only [List.head?_cons, ne_eq, not_true_eq_false, if_false, List.drop_succ_cons,
    List.drop_zero]
  rw [s2, if_neg hN2]

/-- Witness for C7's amended theorem: applied to `b2:a1` it reproduces the
counterexample's bounds `[2-1, (1-1)+1) = [1,1)` on both axes. -/
theorem c7_range_bounds_first_to_second_witness :
    cell_reference (['b'] ++ (['2'] ++ (':' :: (['a'] ++ (['1'] ++ []))))) =
      .ok (.cellRange 1 1 1 1, []) := by
  have h := c7_range_bounds_first_to_second ['b'] ['2'] ['a'] ['1'] []
    (by decide) (by intro c hc; simp at hc; subst hc; decide)
    (by decide) (by intro c hc; simp at hc; subst hc; decide)
    (by decide) (by intro c hc; simp at hc; subst hc; decide)
    (by decide) (by intro c hc; simp at hc; subst hc; decide)
    (by intro c hc; cases hc) (by decide) (by decide)
  rw [h]
  decide

/-- A formula cell (`=a1+a2`) carrying a cached successful result of 3. -/
def c9Cell : Cell :=
  { source := "=a1+a2",
    kind := .expr (.binary (.literal (.cellRef 0 0)) .plus (.literal (.cellRef 0 1)))
      (some (.ok 3)) }

/-- C9: `impl Display for Cell` renders the raw source text for *every*
cell kind; a formula cell whose cached result is `Ok(3)` still renders as
`=a1+a2`, not as the claimed cached value `3`. -/
theorem c9_display_renders_source_not_cache :
    cellDisplay c9Cell = "=a1+a2" ∧ cellDisplay c9Cell ≠ "3" := by
  exact ⟨rfl, by decide⟩

end Rxl
